import Mathlib

/-!
# Verification of the ASO dashboard's CSV/projection core

Shallow embedding of the repository's CSV ingestion layer
(`src/lib/flexible-csv-parser.ts`, `src/lib/csv-parser.ts` strict variant),
the insight aggregation / projection formulas, and the prediction module,
together with theorems settling the specification claims.

Modelling conventions:
* JavaScript objects produced by PapaParse (`header: true`, no dynamic
  typing) are modelled as ordered association lists `List (String × String)`;
  all cell values are strings, as PapaParse delivers them.
* JavaScript numbers are modelled as `ℚ` where the source only performs
  field arithmetic, and as `ℝ` where `Math.sqrt` / `Math.log10` /
  `Math.pow` occur.
* `Math.round x` is `⌊x + 1/2⌋` (JavaScript rounds half toward +∞).
* A JavaScript `Set` is modelled as a list with membership (`add` = cons,
  `has` = contains); this has the same membership semantics.
* `Math.random()` (used by the prediction module to backfill missing
  metrics) is modelled as an explicit stream `ℕ → ℚ` of the values returned
  by successive calls.
-/

namespace ASO

/-! ## Flexible CSV parser (`src/lib/flexible-csv-parser.ts`) -/

/-- A parsed CSV row: ordered field-name/value pairs (a PapaParse object). -/
abbrev Row := List (String × String)

/-- `row[key]` for a PapaParse row object. -/
def lookupField (row : Row) (key : String) : Option String :=
  (row.find? (fun p => p.1 == key)).map (·.2)

/-- The `fieldMap` table of `processCSVResults`, verbatim from the source. -/
def fieldMapPairs : List (String × String) :=
  [("app name", "appName"), ("app_name", "appName"), ("application name", "appName"),
   ("app id", "appId"), ("app_id", "appId"), ("bundle id", "appId"), ("package name", "appId"),
   ("store", "store"), ("platform", "store"), ("category", "category"),
   ("installs", "currentInstalls"), ("downloads", "currentInstalls"),
   ("current installs", "currentInstalls"),
   ("keyword", "keyword"), ("term", "keyword"), ("search term", "keyword"), ("query", "keyword"),
   ("volume", "volume"), ("search volume", "volume"), ("monthly searches", "volume"),
   ("traffic", "volume"),
   ("difficulty", "difficulty"), ("keyword difficulty", "difficulty"),
   ("competition", "difficulty"),
   ("rank", "currentRank"), ("current rank", "currentRank"), ("position", "currentRank"),
   ("rankings", "currentRank"),
   ("relevancy", "relevancy"), ("relevance", "relevancy"), ("relevance score", "relevancy"),
   ("reach", "maximumReach"), ("maximum reach", "maximumReach"),
   ("potential reach", "maximumReach"),
   ("cpc", "cpc"), ("cost per click", "cpc")]

/-- JavaScript `toLowerCase`, modelled per character (ASCII-faithful and
kernel-computable, unlike the byte-position-based library function). -/
def jsToLower (s : String) : String := String.mk (s.toList.map Char.toLower)

/-- JavaScript `trim` (kernel-computable model). -/
def jsTrim (s : String) : String :=
  String.mk (((s.toList.dropWhile Char.isWhitespace).reverse.dropWhile
    Char.isWhitespace).reverse)

/-- Split helper: current (reversed) segment, remaining characters. -/
def splitCharsAux (p : Char -> Bool) : List Char -> List Char -> List String
  | cur, [] => [String.mk cur.reverse]
  | cur, c :: rest =>
    if p c then String.mk cur.reverse :: splitCharsAux p [] rest
    else splitCharsAux p (c :: cur) rest

/-- JavaScript `split` at every character satisfying `p`, keeping empty
segments (kernel-computable model). -/
def jsSplit (s : String) (p : Char -> Bool) : List String :=
  splitCharsAux p [] s.toList

/-- JavaScript `endsWith` (kernel-computable model). -/
def jsEndsWith (s t : String) : Bool := t.toList.isSuffixOf s.toList

/-- `fieldMap[s]` (JS object lookup; keys above are unique). -/
def fieldMapLookup (s : String) : Option String :=
  (fieldMapPairs.find? (fun p => p.1 == s)).map (·.2)

/-- `fieldMap[field.toLowerCase()] || field.toLowerCase()`. -/
def standardizeField (field : String) : String :=
  (fieldMapLookup (jsToLower field)).getD (jsToLower field)

/-- The `appFields` list of `processCSVResults`. -/
def appFields : List String :=
  ["appName", "appId", "store", "category", "currentInstalls"]

/-- The `numericFields` list of `processCSVResults`. -/
def numericFields : List String :=
  ["volume", "difficulty", "currentRank", "relevancy", "traffic", "cpc", "maximumReach"]

/-- `findKeywordField`: first key of the row recognised as a keyword column. -/
def findKeywordField (row : Row) : Option String :=
  (row.map (·.1)).find? (fun field =>
    let lf := jsToLower field
    lf == "keyword" || lf == "term" || lf == "search term" || lf == "query" ||
      fieldMapLookup lf == some "keyword")

/-- Numeric value of a decimal-digit character. -/
def digitVal (c : Char) : ℕ := c.toNat - ('0').toNat

/-- Value of a digit run, most significant first. -/
def digitsToNat (ds : List Char) : ℕ :=
  ds.foldl (fun a c => 10 * a + digitVal c) 0

/-- Model of JavaScript `parseFloat` on the finite decimal grammar:
skip leading whitespace, optional sign, digits with optional fraction,
optional `e`/`E` exponent; ignore any trailing junk; `none` when no digits
can be consumed (the `NaN` result).  The `Infinity` keyword is outside the
modelled input space. -/
def jsParseFloat (s : String) : Option ℚ :=
  let l := s.toList.dropWhile Char.isWhitespace
  let (sign, l1) : ℚ × List Char :=
    match l with
    | '+' :: r => (1, r)
    | '-' :: r => (-1, r)
    | _ => (1, l)
  let ip := l1.takeWhile Char.isDigit
  let l2 := l1.dropWhile Char.isDigit
  let (fp, l3) : List Char × List Char :=
    match l2 with
    | '.' :: r => (r.takeWhile Char.isDigit, r.dropWhile Char.isDigit)
    | _ => ([], l2)
  if ip.isEmpty && fp.isEmpty then none
  else
    let mantissa : ℚ := (digitsToNat ip : ℚ) + (digitsToNat fp : ℚ) / 10 ^ fp.length
    let exp : ℤ :=
      match l3 with
      | 'e' :: r =>
        (match r with
         | '+' :: r2 => if (r2.takeWhile Char.isDigit).isEmpty then 0 else
             (digitsToNat (r2.takeWhile Char.isDigit) : ℤ)
         | '-' :: r2 => if (r2.takeWhile Char.isDigit).isEmpty then 0 else
             -(digitsToNat (r2.takeWhile Char.isDigit) : ℤ)
         | _ => if (r.takeWhile Char.isDigit).isEmpty then 0 else
             (digitsToNat (r.takeWhile Char.isDigit) : ℤ))
      | 'E' :: r =>
        (match r with
         | '+' :: r2 => if (r2.takeWhile Char.isDigit).isEmpty then 0 else
             (digitsToNat (r2.takeWhile Char.isDigit) : ℤ)
         | '-' :: r2 => if (r2.takeWhile Char.isDigit).isEmpty then 0 else
             -(digitsToNat (r2.takeWhile Char.isDigit) : ℤ)
         | _ => if (r.takeWhile Char.isDigit).isEmpty then 0 else
             (digitsToNat (r.takeWhile Char.isDigit) : ℤ))
      | _ => 0
    some (sign * (mantissa * (10 : ℚ) ^ exp))

/-- `value.toString().replace(/[,%$]/g, '')`. -/
def stripNumChars (v : String) : String :=
  String.mk (v.toList.filter (fun c => !(c == ',' || c == '%' || c == '$')))

/-- `parseNumericValue` from the flexible parser: strip `,` `%` `$`, parse as
float, and `0` when the parse yields `NaN`.  (PapaParse delivers strings, so
the `typeof value === 'number'` early return never fires.) -/
def parseNumericValue (v : String) : ℚ :=
  match jsParseFloat (stripNumChars v) with
  | none => 0
  | some q => q

/-- `KeywordData` of the flexible parser; the index-signature extension map
is the ordered `extras` list. -/
structure KeywordData where
  keyword : String
  volume : Option ℚ := none
  difficulty : Option ℚ := none
  currentRank : Option ℚ := none
  relevancy : Option ℚ := none
  traffic : Option ℚ := none
  competition : Option ℚ := none
  cpc : Option ℚ := none
  maximumReach : Option ℚ := none
  extras : List (String × String) := []
  deriving DecidableEq, Repr

/-- `keywordData[standardField] = q` for the seven numeric canonical fields. -/
def setNumericField (kd : KeywordData) (name : String) (q : ℚ) : KeywordData :=
  if name = "volume" then { kd with volume := some q }
  else if name = "difficulty" then { kd with difficulty := some q }
  else if name = "currentRank" then { kd with currentRank := some q }
  else if name = "relevancy" then { kd with relevancy := some q }
  else if name = "traffic" then { kd with traffic := some q }
  else if name = "cpc" then { kd with cpc := some q }
  else if name = "maximumReach" then { kd with maximumReach := some q }
  else kd

/-- Read back a numeric canonical field by name. -/
def getNumericField (kd : KeywordData) (name : String) : Option ℚ :=
  if name = "volume" then kd.volume
  else if name = "difficulty" then kd.difficulty
  else if name = "currentRank" then kd.currentRank
  else if name = "relevancy" then kd.relevancy
  else if name = "traffic" then kd.traffic
  else if name = "cpc" then kd.cpc
  else if name = "maximumReach" then kd.maximumReach
  else none

/-- `keywordData[standardField] = value` for a non-canonical field
(JS object assignment: overwrite in place or append). -/
def setExtraField (kd : KeywordData) (name value : String) : KeywordData :=
  if kd.extras.any (fun p => p.1 == name) then
    { kd with extras := kd.extras.map (fun p => if p.1 == name then (name, value) else p) }
  else
    { kd with extras := kd.extras ++ [(name, value)] }

/-- One iteration of the `Object.keys(row).forEach` body of
`processCSVResults`: standardize the field name, skip app-detail and keyword
fields, skip blank values, coerce numeric canonical fields. -/
def applyField (kd : KeywordData) (field value : String) : KeywordData :=
  let standardField := standardizeField field
  if appFields.contains standardField || standardField == "keyword" then kd
  else if value == "" then kd
  else if numericFields.contains standardField then
    setNumericField kd standardField (parseNumericValue value)
  else setExtraField kd standardField value

/-- Build the `KeywordData` record for one row (`const keywordData = { keyword }`
followed by the per-field loop). -/
def buildKeywordRecord (row : Row) (kw : String) : KeywordData :=
  row.foldl (fun kd p => applyField kd p.1 p.2) { keyword := kw }

/-- The `data.forEach` loop of `processCSVResults`: skip rows with a falsy
(absent or empty) keyword or an already-seen keyword, otherwise record the
keyword as seen and emit its record. -/
def processRows (kf : String) : List Row → List String → List KeywordData
  | [], _ => []
  | row :: rest, seen =>
    match lookupField row kf with
    | none => processRows kf rest seen
    | some kw =>
      if kw = "" then processRows kf rest seen
      else if kw ∈ seen then processRows kf rest seen
      else buildKeywordRecord row kw :: processRows kf rest (kw :: seen)

/-- `availableFields`: keys of the first row with nonblank trimmed name. -/
def availableFieldsOf (firstRow : Row) : List String :=
  (firstRow.map (·.1)).filter (fun k => jsTrim k ≠ "")

/-- The keyword-extraction path of `processCSVResults`: the empty-input check,
the missing-keyword-column check, `findKeywordField`, and the keyword loop.
(App-detail extraction and the random dataset id do not affect the returned
keyword sequence and are not modelled.) -/
def keywordsOfCSV (data : List Row) : Except String (List KeywordData) :=
  match data with
  | [] => Except.error "CSV file is empty"
  | firstRow :: _ =>
    let available := availableFieldsOf firstRow
    let standardized := available.map standardizeField
    let requiredFields := ["keyword"]
    let missingFields := requiredFields.filter (fun field =>
      !(standardized.contains field) &&
        !(available.any (fun f => fieldMapLookup (jsToLower f) == some field)))
    if missingFields.contains "keyword" then
      Except.error "CSV file must contain a keyword column"
    else
      match findKeywordField firstRow with
      | none => Except.error "Could not find a keyword column in the CSV"
      | some kf => Except.ok (processRows kf data [])

/-! ## Strict CSV parser (`parseCSV` in `src/lib/csv-parser.ts`) -/

/-- `EXPECTED_HEADERS`, verbatim. -/
def EXPECTED_HEADERS : List String :=
  ["App Name", "App ID", "Store", "Device", "Country Code", "Language Code",
   "Main App ID", "Main App Name", "Keyword", "Keyword List", "Starred",
   "Volume", "Difficulty", "Maximum Reach", "Branded", "Branded App ID",
   "Branded App Name", "KEI", "Chance", "Relevancy Score"]

/-- `cleanHeader` / `cleanValue`: drop one leading and one trailing quote
character (`/^["']|["']$/g`), then trim. -/
def cleanCell (s : String) : String :=
  let l := s.toList
  let l1 := match l with
    | '"' :: r => r
    | '\'' :: r => r
    | _ => l
  let l2 := if l1.getLast? = some '"' || l1.getLast? = some '\'' then l1.dropLast else l1
  jsTrim (String.mk l2)

/-- Occurrences of a character in a string (the separator-detection counts). -/
def countChar (s : String) (c : Char) : ℕ := s.toList.count c

/-- Model of JavaScript `parseInt` (no radix argument) on decimal input:
skip leading whitespace, optional sign, leading digit run; `none` on no
digits (the `NaN` result).  `0x` hex prefixes are outside the modelled
input space. -/
def jsParseInt (s : String) : Option ℤ :=
  let l := s.toList.dropWhile Char.isWhitespace
  let (sign, l1) : ℤ × List Char :=
    match l with
    | '+' :: r => (1, r)
    | '-' :: r => (-1, r)
    | _ => (1, l)
  let ds := l1.takeWhile Char.isDigit
  if ds.isEmpty then none else some (sign * (digitsToNat ds : ℤ))

/-- `parseNumber(value, min?, max?)` of the strict parser: `0` on `NaN`,
then return `min` when below it, else `max` when above it, else the value. -/
def parseNumber (v : String) (mn mx : Option ℤ) : ℤ :=
  match jsParseInt v with
  | none => 0
  | some n =>
    match mn, mx with
    | some m, some M => if n < m then m else if n > M then M else n
    | some m, none => if n < m then m else n
    | none, some M => if n > M then M else n
    | none, none => n

/-- `parseBoolean` of the strict parser. -/
def parseBoolean (v : String) : Bool :=
  jsToLower v == "true" || jsToLower v == "yes" || v == "1"

/-- The strict parser's `KeywordData` shape (from `src/lib/types.ts`,
as constructed by `parseCSV`). -/
structure StrictKeywordData where
  appName : String
  appId : String
  keyword : String
  store : String
  device : String
  countryCode : String
  languageCode : String
  mainAppId : String
  mainAppName : String
  keywordList : String
  starred : Bool
  volume : Option ℤ
  difficulty : ℤ
  maximumReach : ℤ
  branded : Bool
  brandedAppId : Option String
  brandedAppName : Option String
  kei : ℤ
  chance : ℤ
  relevancyScore : ℤ
  deriving DecidableEq, Repr

/-- `getValue(columnName)`: look the lower-cased name up in the header map
(a JS `Map` built from all headers, so on duplicate lower-cased headers the
last index wins) and read that cell. -/
def getValue (headers values : List String) (name : String) : String :=
  let idx := (headers.enum.foldl
    (fun acc p => if jsToLower p.2 == jsToLower name then some p.1 else acc) none)
  match idx with
  | some i => values.getD i ""
  | none => ""

/-- The record-construction block of the strict parser's row loop. -/
def buildStrictRecord (headers values : List String) : StrictKeywordData :=
  let g := getValue headers values
  { appName := g "App Name"
    appId := g "App ID"
    keyword := g "Keyword"
    store := if jsToLower (g "Store") == "ios" then "iOS" else "Android"
    device := if g "Device" == "" then "all" else g "Device"
    countryCode := if g "Country Code" == "" then "US" else g "Country Code"
    languageCode := if g "Language Code" == "" then "en" else g "Language Code"
    mainAppId := if g "Main App ID" == "" then g "App ID" else g "Main App ID"
    mainAppName := if g "Main App Name" == "" then g "App Name" else g "Main App Name"
    keywordList := if g "Keyword List" == "" then g "Keyword" else g "Keyword List"
    starred := parseBoolean (g "Starred")
    volume := if g "Volume" == "" then none else some (parseNumber (g "Volume") (some 0) none)
    difficulty := if g "Difficulty" == "" then 0 else parseNumber (g "Difficulty") (some 0) (some 100)
    maximumReach := parseNumber (g "Maximum Reach") (some 0) none
    branded := parseBoolean (g "Branded")
    brandedAppId := if g "Branded App ID" == "" then none else some (g "Branded App ID")
    brandedAppName := if g "Branded App Name" == "" then none else some (g "Branded App Name")
    kei := parseNumber (g "KEI") (some 0) (some 100)
    chance := parseNumber (g "Chance") (some 0) (some 100)
    relevancyScore := parseNumber (g "Relevancy Score") (some 0) (some 100) }

/-- One iteration of the strict row loop at `nonEmptyLines` index `i`:
column-count check, record construction, required-field check. -/
def processStrictRow (headers : List String) (sep : Char) (i : ℕ) (line : String) :
    Except String StrictKeywordData :=
  let values := (jsSplit line (· == sep)).map cleanCell
  if values.length ≠ headers.length then
    Except.error s!"Row {i + 1}: Expected {headers.length} columns but found {values.length}"
  else
    let kd := buildStrictRecord headers values
    let missingRequiredFields :=
      (if kd.appName = "" then ["App Name"] else []) ++
      (if kd.appId = "" then ["App ID"] else []) ++
      (if kd.keyword = "" then ["Keyword"] else [])
    if missingRequiredFields ≠ [] then
      let m := String.intercalate ", " missingRequiredFields
      Except.error s!"Row {i + 1}: Missing values for: {m}"
    else Except.ok kd

/-- The strict parser's `for` loop over data rows, collecting parsed rows
and row-level error messages in row order. -/
def strictLoop (headers : List String) (sep : Char) :
    ℕ → List String → List StrictKeywordData × List String
  | _, [] => ([], [])
  | i, line :: rest =>
    let (d, e) := strictLoop headers sep (i + 1) rest
    match processStrictRow headers sep i line with
    | Except.ok kd => (kd :: d, e)
    | Except.error msg => (d, msg :: e)

/-- The aggregate error message emitted when any row-level error was
collected. -/
def aggregateRowErrors (errors : List String) : String :=
  "Found the following issues in your file:\n\n" ++ String.intercalate "\n" errors ++
    "\n\nPlease fix these issues and try uploading again."

/-- The header-mismatch error message (content assembled as in the source;
claims only depend on it being an error). -/
def headerErrorMessage (missingColumns extraColumns : List String)
    (sep : Char) (headers : List String) : String :=
  let miss := if missingColumns.length > 0 then
      "Missing columns:\n" ++ String.intercalate "\n" (missingColumns.map ("- " ++ ·)) ++ "\n\n"
    else ""
  let extra := if extraColumns.length > 0 then
      "Unexpected columns:\n" ++ String.intercalate "\n" (extraColumns.map ("- " ++ ·)) ++ "\n\n"
    else ""
  let sepName := if sep = '\t' then "tabs" else "commas"
  let hs := String.intercalate ", " headers
  let n := toString headers.length
  "There are issues with the column headers:\n\n" ++ miss ++ extra ++
    s!"File appears to be using {sepName} as separators.\n" ++
    s!"Found {n} columns: {hs}\n\n" ++
    "Please ensure:\n1. The file is tab-separated\n" ++
    "2. Column names match exactly (including capitalization)\n" ++
    "3. There are no extra spaces or quotes in column names\n" ++
    "4. Download and use the sample file as a template"

/-- Separator detection: comma when the header line holds more commas than
tabs, tab otherwise. -/
def sepOf (firstLine : String) : Char :=
  if countChar firstLine ',' > countChar firstLine '\t' then ',' else '\t'

/-- The cleaned header list of the strict parser. -/
def headersOf (firstLine : String) : List String :=
  (jsSplit firstLine (· == sepOf firstLine)).map cleanCell

/-- `parseCSV` of `src/lib/csv-parser.ts`, on the uploaded file's name and
text. -/
def parseCSV (name text : String) : Except String (List StrictKeywordData) :=
  if !(jsEndsWith (jsToLower name) ".csv") then Except.error "Please upload a CSV file"
  else
    let lines := jsSplit text (· == '\n')
    let nonEmptyLines := lines.filter (fun l => (jsTrim l).length > 0)
    match nonEmptyLines with
    | [] => Except.error "The file is empty. Please provide a file with data."
    | [_] => Except.error "The file must contain a header row and at least one data row."
    | firstLine :: rest =>
      let sep := sepOf firstLine
      let headers := headersOf firstLine
      let missingColumns := EXPECTED_HEADERS.filter (fun expected =>
        !(headers.any (fun h => jsToLower h == jsToLower expected)))
      let extraColumns := headers.filter (fun h =>
        !(EXPECTED_HEADERS.any (fun expected => jsToLower expected == jsToLower h)))
      if missingColumns.length > 0 || extraColumns.length > 0 then
        Except.error (headerErrorMessage missingColumns extraColumns sep headers)
      else
        let (data, errors) := strictLoop headers sep 1 rest
        if errors ≠ [] then Except.error (aggregateRowErrors errors)
        else if data = [] then Except.error "No valid data rows were found in the file."
        else Except.ok data

/-! ## Insight aggregation (`src/lib/ai-analysis.ts` concatenated into
`csv-parser.ts`: `generateKeywordInsights`, `categorizeKeywords`) -/

/-- `AppDetails` of `ParsedAppData` (flexible parser). -/
structure AppDetails where
  appName : Option String := none
  appId : Option String := none
  store : Option String := none
  category : Option String := none
  currentInstalls : Option ℚ := none
  deriving DecidableEq, Repr

/-- `ParsedAppData` as consumed by the analysis stage (the random dataset
`id` and the field lists are not read by any aggregation). -/
structure ParsedAppData where
  appDetails : AppDetails := {}
  keywords : List KeywordData := []
  deriving DecidableEq, Repr

/-- `wordFrequency[word] = (wordFrequency[word] || 0) + 1`, insertion order
preserved (JS object keys). -/
def bumpWord (freq : List (String × ℕ)) (w : String) : List (String × ℕ) :=
  if freq.any (fun p => p.1 == w) then
    freq.map (fun p => if p.1 == w then (p.1, p.2 + 1) else p)
  else freq ++ [(w, 1)]

/-- `kw.keyword.toLowerCase().split(/\s+/)`.  Splitting at every whitespace
character instead of at runs only adds empty tokens, which the `length > 3`
guard discards. -/
def wordsOf (s : String) : List String :=
  jsSplit (jsToLower s) (fun c => c.isWhitespace)

/-- The cross-keyword token frequency table of `categorizeKeywords`
(tokens of length `> 3` only). -/
def wordFrequency (keywords : List KeywordData) : List (String × ℕ) :=
  keywords.foldl (fun freq kw =>
    (wordsOf kw.keyword).foldl (fun f w => if w.length > 3 then bumpWord f w else f) freq) []

/-- Tokens occurring in at least two keywords (`count >= 2`), in first-seen
order. -/
def commonThemes (keywords : List KeywordData) : List String :=
  ((wordFrequency keywords).filter (fun p => 2 ≤ p.2)).map (·.1)

/-- `t` occurs as a contiguous subsequence of `s` (JS `String.includes`). -/
def listContainsSeq (t : List Char) : List Char → Bool
  | [] => t.isEmpty
  | c :: s => t.isPrefixOf (c :: s) || listContainsSeq t s

/-- `s.includes(t)` on strings. -/
def strIncludes (s t : String) : Bool := listContainsSeq t.toList s.toList

/-- The per-theme buckets of `categorizeKeywords`: for each common theme,
the keywords containing it (case-insensitive substring match). -/
def themeCategories (keywords : List KeywordData) : List (String × List KeywordData) :=
  (commonThemes keywords).map (fun theme =>
    (theme, keywords.filter (fun kw => strIncludes (jsToLower kw.keyword) (jsToLower theme))))

/-- The `categorizedKeywords` set: every keyword string occurring in some
theme bucket (JS `Set` modelled as a list). -/
def categorizedSet (keywords : List KeywordData) : List String :=
  (themeCategories keywords).foldl
    (fun s c => c.2.foldl (fun s2 kw => kw.keyword :: s2) s) []

/-- The `other` bucket: keywords whose string is in no theme bucket. -/
def otherBucket (keywords : List KeywordData) : List KeywordData :=
  keywords.filter (fun kw => !((categorizedSet keywords).contains kw.keyword))

/-- `categories['other'] = ...`: JS object assignment (overwrite an existing
`other` key in place, else append). -/
def withOther (keywords : List KeywordData) : List (String × List KeywordData) :=
  let cats := themeCategories keywords
  if cats.any (fun c => c.1 == "other") then
    cats.map (fun c => if c.1 == "other" then ("other", otherBucket keywords) else c)
  else cats ++ [("other", otherBucket keywords)]

/-- `categorizeKeywords`: theme buckets by case-insensitive substring match,
an `other` bucket of uncategorized keywords, then deletion of every bucket
with fewer than two members. -/
def categorizeKeywords (keywords : List KeywordData) : List (String × List KeywordData) :=
  (withOther keywords).filter (fun c => 2 ≤ c.2.length)

/-- `k.volume || 0`. -/
def volD (k : KeywordData) : ℚ := k.volume.getD 0

/-- `.sort((a, b) => (b.volume || 0) - (a.volume || 0))`: stable descending
sort by `volume || 0` (ES2019 `Array.prototype.sort` is stable). -/
def sortByVolumeDesc (l : List KeywordData) : List KeywordData :=
  l.insertionSort (fun a b => volD b ≤ volD a)

/-- `KeywordInsights`. -/
structure KeywordInsights where
  trendingKeywords : List KeywordData
  lowCompetitionOpportunities : List KeywordData
  highVolumeKeywords : List KeywordData
  underperformingKeywords : List KeywordData
  keywordCategories : List (String × List KeywordData)
  summary : String
  deriving DecidableEq, Repr

/-- JavaScript `Math.round` on a rational. -/
def jsRoundQ (q : ℚ) : ℤ := ⌊q + 1 / 2⌋

/-- `x || default` on an optional string (the empty string is falsy). -/
def jsOrStr (o : Option String) (d : String) : String :=
  match o with
  | some s => if s == "" then d else s
  | none => d

/-- `.trim().replace(/\s+/g, ' ')`. -/
def collapseWs (s : String) : String :=
  String.intercalate " " ((jsSplit s (fun c => c.isWhitespace)).filter (· ≠ ""))

/-- `"kw1", "kw2", ...` fragments of the summary. -/
def quoteJoin (l : List KeywordData) : String :=
  String.intercalate ", " (l.map (fun k => "\"" ++ k.keyword ++ "\""))

/-- `generateInsightsSummary` (number formatting is Lean's decimal
rendering of the rounded integers). -/
def generateInsightsSummary (appData : ParsedAppData)
    (_trendingKeywords lowCompetitionOpportunities _highVolumeKeywords
      underperformingKeywords : List KeywordData) : String :=
  let appName := jsOrStr appData.appDetails.appName "Your app"
  let totalKeywords := appData.keywords.length
  let volCount := (appData.keywords.filter (fun k => k.volume ≠ none)).length
  let avgVolume := (appData.keywords.foldl (fun s k => s + k.volume.getD 0) 0) /
    (if volCount = 0 then 1 else (volCount : ℚ))
  let diffCount := (appData.keywords.filter (fun k => k.difficulty ≠ none)).length
  let avgDifficulty := (appData.keywords.foldl (fun s k => s + k.difficulty.getD 0) 0) /
    (if diffCount = 0 then 1 else (diffCount : ℚ))
  let topOpportunities := if lowCompetitionOpportunities.length > 0 then
      "Your top keyword opportunities are: " ++
        quoteJoin (lowCompetitionOpportunities.take 3) ++ "."
    else ""
  let underperforming := if underperformingKeywords.length > 0 then
      "You should focus on improving your ranking for: " ++
        quoteJoin (underperformingKeywords.take 3) ++ "."
    else ""
  collapseWs ("We analyzed " ++ toString totalKeywords ++ " keywords for " ++ appName ++
    ". The average search volume is " ++ toString (jsRoundQ avgVolume) ++
    " with an average difficulty of " ++ toString (jsRoundQ avgDifficulty) ++ "/100. " ++
    topOpportunities ++ " " ++ underperforming ++
    " By optimizing your metadata with our recommendations, you can improve visibility and increase downloads.")

/-- `generateKeywordInsights`. -/
def generateKeywordInsights (appData : ParsedAppData) : KeywordInsights :=
  let keywords := appData.keywords
  let keywordCategories := categorizeKeywords keywords
  let trendingKeywords := (sortByVolumeDesc (keywords.filter (fun k =>
    match k.volume with
    | some v => decide (500 < v)
    | none => false))).take 5
  let lowCompetitionOpportunities := (sortByVolumeDesc (keywords.filter (fun k =>
    match k.difficulty, k.volume with
    | some d, some v => decide (d < 40) && decide (300 < v)
    | _, _ => false))).take 5
  let highVolumeKeywords := (sortByVolumeDesc (keywords.filter
    (fun k => k.volume ≠ none))).take 5
  let underperformingKeywords := (sortByVolumeDesc (keywords.filter (fun k =>
    match k.volume, k.currentRank with
    | some v, some r => decide (300 < v) && decide (50 < r)
    | _, _ => false))).take 5
  let summary := generateInsightsSummary appData trendingKeywords
    lowCompetitionOpportunities highVolumeKeywords underperformingKeywords
  { trendingKeywords, lowCompetitionOpportunities, highVolumeKeywords,
    underperformingKeywords, keywordCategories, summary }

/-! ## Projection engine (`generateGrowthProjections` in
`src/lib/csv-parser.ts`, and the metadata-boost variant in the dashboard
component `src/unnamed/part_008`) -/

/-- `estimateConversionRate`: the fixed conversion-rate step table. -/
noncomputable def estimateConversionRate (rank : ℝ) : ℝ :=
  if rank ≤ 1 then 0.12
  else if rank ≤ 3 then 0.08
  else if rank ≤ 5 then 0.05
  else if rank ≤ 10 then 0.03
  else if rank ≤ 20 then 0.01
  else if rank ≤ 50 then 0.005
  else 0.001

/-- `estimateRankImprovement` (conservative variant, `csv-parser.ts`). -/
noncomputable def estimateRankImprovement (currentRank difficulty months : ℝ) : ℝ :=
  let difficultyFactor := 1 - difficulty / 200
  let rankFactor := min (Real.logb 10 (currentRank + 10) / 2) 1
  let improvement := rankFactor * difficultyFactor * Real.sqrt months * 20
  min (currentRank - 1) improvement

/-- `projectedRank = Math.max(1, currentRank - rankImprovement)`
(`generateGrowthProjections`). -/
noncomputable def projectedRankAt (currentRank difficulty months : ℝ) : ℝ :=
  max 1 (currentRank - estimateRankImprovement currentRank difficulty months)

/-- `metadataBoostFactor` of the dashboard variant. -/
noncomputable def metadataBoostFactor : ℝ := 1.2

/-- `estimateRankImprovement` (metadata-boost variant, `part_008`). -/
noncomputable def estimateRankImprovementBoost (currentRank difficulty months : ℝ) : ℝ :=
  let difficultyFactor := 1 - difficulty / 200
  let rankFactor := min (Real.logb 10 (currentRank + 10) / 2) 1
  let improvement := rankFactor * difficultyFactor * Real.sqrt months * 20 * metadataBoostFactor
  min (currentRank - 1) improvement

/-- Projected rank of the metadata-boost variant. -/
noncomputable def projectedRankBoostAt (currentRank difficulty months : ℝ) : ℝ :=
  max 1 (currentRank - estimateRankImprovementBoost currentRank difficulty months)

/-- `monthlyDownloads = volume * conversionRate * 30` (volume treated as a
daily figure). -/
noncomputable def monthlyDownloads (volume projectedRank : ℝ) : ℝ :=
  volume * estimateConversionRate projectedRank * 30

/-! ## Metadata keyword-field assembly (`generateOption` in `part_008`) -/

/-- The keyword-string loop of `generateOption`: append each keyword while
the concatenation without separator stays within 97 characters, separating
with `", "` once nonempty. -/
def buildKeywordsString (keywords : List String) : String :=
  keywords.foldl (fun acc kw =>
    if (acc ++ kw).length ≤ 97 then acc ++ (if acc ≠ "" then ", " else "") ++ kw
    else acc) ""

/-! ## Prediction module (`generatePredictions`, `getKeywordMetrics` in
`src/lib/csv-parser.ts` third part) -/

/-- `TargetRanks`. -/
structure TargetRanks where
  threeMonths : ℚ
  sixMonths : ℚ
  nineMonths : ℚ
  twelveMonths : ℚ
  deriving DecidableEq, Repr

/-- A value per projection horizon (`threeMonths` … `twelveMonths`). -/
structure FourHorizons (α : Type) where
  threeMonths : α
  sixMonths : α
  nineMonths : α
  twelveMonths : α
  deriving DecidableEq, Repr

/-- `KeywordMetrics`. -/
structure KeywordMetrics where
  currentRank : ℚ
  volume : ℚ
  difficulty : ℚ
  deriving DecidableEq, Repr

/-- JavaScript `Math.round` on a real. -/
noncomputable def jsRoundR (x : ℝ) : ℤ := ⌊x + 1 / 2⌋

/-- `getKeywordMetrics`: three `Math.random()` calls (stream positions `i`,
`i+1`, `i+2`) produce the default rank/volume/difficulty; `??` keeps a
present metric. -/
def getKeywordMetrics (data : KeywordData) (random : ℕ → ℚ) (i : ℕ) : KeywordMetrics :=
  let defaultRank : ℚ := ((⌊random i * 100⌋ : ℤ) : ℚ) + 1
  let defaultVolume : ℚ := ((⌊random (i + 1) * 1000⌋ : ℤ) : ℚ) + 100
  let defaultDifficulty : ℚ := ((⌊random (i + 2) * 100⌋ : ℤ) : ℚ)
  { currentRank := data.currentRank.getD defaultRank
    volume := data.volume.getD defaultVolume
    difficulty := data.difficulty.getD defaultDifficulty }

/-- `calculatePredictedRank`. -/
def calculatePredictedRank (currentRank targetRank difficulty : ℚ) : ℤ :=
  let progress := min 1 ((100 - difficulty) / 100)
  let rankImprovement := (currentRank - targetRank) * progress
  max 1 (jsRoundQ (currentRank - rankImprovement))

/-- `calculatePredictedInstalls` (`Math.pow` is real exponentiation). -/
noncomputable def calculatePredictedInstalls (volume currentRank : ℚ) (predictedRank : ℤ) : ℤ :=
  let rankImprovement : ℝ := (currentRank : ℝ) - (predictedRank : ℝ)
  let baseMultiplier : ℝ := 1.2
  let multiplier := baseMultiplier ^ (rankImprovement / 10)
  jsRoundR ((volume : ℝ) * multiplier)

/-- `PredictionResult` as built by `generatePredictions`. -/
structure PredictionResult where
  keyword : String
  currentRank : ℚ
  predictedRanks : FourHorizons ℤ
  predictedInstalls : FourHorizons ℤ
  deriving DecidableEq, Repr

/-- The body of `generatePredictions`'s `map` for one record, consuming the
random stream at positions `i`, `i+1`, `i+2`. -/
noncomputable def predictionFor (data : KeywordData) (targetRanks : TargetRanks)
    (random : ℕ → ℚ) (i : ℕ) : PredictionResult :=
  let metrics := getKeywordMetrics data random i
  let predictedRanks : FourHorizons ℤ :=
    { threeMonths := calculatePredictedRank metrics.currentRank targetRanks.threeMonths metrics.difficulty
      sixMonths := calculatePredictedRank metrics.currentRank targetRanks.sixMonths metrics.difficulty
      nineMonths := calculatePredictedRank metrics.currentRank targetRanks.nineMonths metrics.difficulty
      twelveMonths := calculatePredictedRank metrics.currentRank targetRanks.twelveMonths metrics.difficulty }
  let predictedInstalls : FourHorizons ℤ :=
    { threeMonths := calculatePredictedInstalls metrics.volume metrics.currentRank predictedRanks.threeMonths
      sixMonths := calculatePredictedInstalls metrics.volume metrics.currentRank predictedRanks.sixMonths
      nineMonths := calculatePredictedInstalls metrics.volume metrics.currentRank predictedRanks.nineMonths
      twelveMonths := calculatePredictedInstalls metrics.volume metrics.currentRank predictedRanks.twelveMonths }
  { keyword := data.keyword
    currentRank := metrics.currentRank
    predictedRanks := predictedRanks
    predictedInstalls := predictedInstalls }

/-- `generatePredictions` from stream position `i` on: each record consumes
three `Math.random()` calls. -/
noncomputable def generatePredictionsFrom (targetRanks : TargetRanks) (random : ℕ → ℚ) :
    ℕ → List KeywordData → List PredictionResult
  | _, [] => []
  | i, d :: rest =>
    predictionFor d targetRanks random i :: generatePredictionsFrom targetRanks random (i + 3) rest

/-- `generatePredictions(keywordData, targetRanks)` under the ambient random
source `random`. -/
noncomputable def generatePredictions (keywordData : List KeywordData)
    (targetRanks : TargetRanks) (random : ℕ → ℚ) : List PredictionResult :=
  generatePredictionsFrom targetRanks random 0 keywordData

/-! ## Theorems -/

/-- C5: the install-conversion rate is exactly the fixed step function of
rank — `rank≤1 → 0.12`, `≤3 → 0.08`, `≤5 → 0.05`, `≤10 → 0.03`,
`≤20 → 0.01`, `≤50 → 0.005`, else `0.001`; in particular
`conversionRate 1 = 0.12`, `conversionRate 7 = 0.03`,
`conversionRate 75 = 0.001`; and monthly installs for a keyword are
`volume * conversionRate projectedRank * 30`. -/
theorem conversion_rate_table :
    estimateConversionRate 1 = 0.12 ∧
    estimateConversionRate 7 = 0.03 ∧
    estimateConversionRate 75 = 0.001 ∧
    (∀ r : ℝ, r ≤ 1 → estimateConversionRate r = 0.12) ∧
    (∀ r : ℝ, 1 < r → r ≤ 3 → estimateConversionRate r = 0.08) ∧
    (∀ r : ℝ, 3 < r → r ≤ 5 → estimateConversionRate r = 0.05) ∧
    (∀ r : ℝ, 5 < r → r ≤ 10 → estimateConversionRate r = 0.03) ∧
    (∀ r : ℝ, 10 < r → r ≤ 20 → estimateConversionRate r = 0.01) ∧
    (∀ r : ℝ, 20 < r → r ≤ 50 → estimateConversionRate r = 0.005) ∧
    (∀ r : ℝ, 50 < r → estimateConversionRate r = 0.001) ∧
    (∀ volume rank : ℝ, monthlyDownloads volume rank =
      volume * estimateConversionRate rank * 30) := by
  refine ⟨?_, ?_, ?_, ?_, ?_, ?_, ?_, ?_, ?_, ?_, fun _ _ => rfl⟩
  · rw [estimateConversionRate, if_pos (by norm_num)]
  · rw [estimateConversionRate, if_neg (by norm_num), if_neg (by norm_num),
      if_neg (by norm_num), if_pos (by norm_num)]
  · rw [estimateConversionRate, if_neg (by norm_num), if_neg (by norm_num),
      if_neg (by norm_num), if_neg (by norm_num), if_neg (by norm_num),
      if_neg (by norm_num)]
  · intro r h
    rw [estimateConversionRate, if_pos h]
  · intro r h1 h2
    rw [estimateConversionRate, if_neg (by linarith), if_pos h2]
  · intro r h1 h2
    rw [estimateConversionRate, if_neg (by linarith), if_neg (by linarith), if_pos h2]
  · intro r h1 h2
    rw [estimateConversionRate, if_neg (by linarith), if_neg (by linarith),
      if_neg (by linarith), if_pos h2]
  · intro r h1 h2
    rw [estimateConversionRate, if_neg (by linarith), if_neg (by linarith),
      if_neg (by linarith), if_neg (by linarith), if_pos h2]
  · intro r h1 h2
    rw [estimateConversionRate, if_neg (by linarith), if_neg (by linarith),
      if_neg (by linarith), if_neg (by linarith), if_neg (by linarith), if_pos h2]
  · intro r h1
    rw [estimateConversionRate, if_neg (by linarith), if_neg (by linarith),
      if_neg (by linarith), if_neg (by linarith), if_neg (by linarith),
      if_neg (by linarith)]

/-- Concrete instantiation of `conversion_rate_table`'s conditional parts. -/
theorem conversion_rate_table_witness :
    estimateConversionRate 2 = 0.08 ∧ estimateConversionRate 40 = 0.005 :=
  ⟨conversion_rate_table.2.2.2.2.1 2 (by norm_num) (by norm_num),
   conversion_rate_table.2.2.2.2.2.2.2.2.1 40 (by norm_num) (by norm_num)⟩

/-- The keyword-string loop keeps the accumulator within 99 characters. -/
theorem buildKeywordsString_loop_le (l : List String) :
    ∀ acc : String, acc.length ≤ 99 →
      (l.foldl (fun acc kw =>
        if (acc ++ kw).length ≤ 97 then acc ++ (if acc ≠ "" then ", " else "") ++ kw
        else acc) acc).length ≤ 99 := by
  induction l with
  | nil => intro acc h; simpa using h
  | cons kw rest ih =>
    intro acc h
    simp only [List.foldl_cons]
    split
    · next hlen =>
      apply ih
      have hsep : (if acc ≠ "" then ", " else "").length ≤ 2 := by
        split <;> decide
      rw [String.length_append] at hlen
      simp only [String.length_append]
      omega
    · exact ih acc h

/-- C7: for every input keyword list, the metadata keyword-field assembly
produces a string of length at most 100 characters (in fact at most 99):
a keyword is appended only while the combined length stays within 97,
leaving room for the `", "` separators. -/
theorem keywords_string_le_100 (keywords : List String) :
    (buildKeywordsString keywords).length ≤ 100 := by
  have h := buildKeywordsString_loop_le keywords "" (by simp)
  rw [buildKeywordsString]
  exact h.trans (by norm_num)

/-- The rank factor of the improvement model is nonnegative for
`currentRank ≥ 1`. -/
theorem rankFactor_nonneg (c : ℝ) (hc : 1 ≤ c) :
    0 ≤ min (Real.logb 10 (c + 10) / 2) 1 := by
  refine le_min ?_ zero_le_one
  have h := Real.logb_nonneg (b := 10) (by norm_num) (by linarith : (1 : ℝ) ≤ c + 10)
  linarith

/-- C3: for every `(currentRank, difficulty, months)` with `currentRank ≥ 1`,
`0 ≤ difficulty ≤ 100` and `months > 0`, the projected rank of the
rank-improvement model — in both the conservative and the metadata-boost
variant — satisfies `1 ≤ projectedRank ≤ currentRank`. -/
theorem projected_rank_bounds (c d m : ℝ) (hc : 1 ≤ c) (hd0 : 0 ≤ d)
    (hd1 : d ≤ 100) (hm : 0 < m) :
    (1 ≤ projectedRankAt c d m ∧ projectedRankAt c d m ≤ c) ∧
    (1 ≤ projectedRankBoostAt c d m ∧ projectedRankBoostAt c d m ≤ c) := by
  have hrf : 0 ≤ min (Real.logb 10 (c + 10) / 2) 1 := rankFactor_nonneg c hc
  have hdf : 0 ≤ 1 - d / 200 := by linarith
  have hsq : 0 ≤ Real.sqrt m := Real.sqrt_nonneg m
  have himp : 0 ≤ min (Real.logb 10 (c + 10) / 2) 1 * (1 - d / 200) * Real.sqrt m * 20 :=
    mul_nonneg (mul_nonneg (mul_nonneg hrf hdf) hsq) (by norm_num)
  have himpB : 0 ≤ min (Real.logb 10 (c + 10) / 2) 1 * (1 - d / 200) * Real.sqrt m * 20 *
      metadataBoostFactor :=
    mul_nonneg himp (by rw [metadataBoostFactor]; norm_num)
  have hri0 : 0 ≤ estimateRankImprovement c d m := by
    simp only [estimateRankImprovement]
    exact le_min (by linarith) himp
  have hri1 : estimateRankImprovement c d m ≤ c - 1 := by
    simp only [estimateRankImprovement]
    exact min_le_left _ _
  have hriB0 : 0 ≤ estimateRankImprovementBoost c d m := by
    simp only [estimateRankImprovementBoost]
    exact le_min (by linarith) himpB
  have hriB1 : estimateRankImprovementBoost c d m ≤ c - 1 := by
    simp only [estimateRankImprovementBoost]
    exact min_le_left _ _
  refine ⟨⟨le_max_left 1 _, ?_⟩, ⟨le_max_left 1 _, ?_⟩⟩
  · rw [projectedRankAt]
    exact max_le (by linarith) (by linarith)
  · rw [projectedRankBoostAt]
    exact max_le (by linarith) (by linarith)

/-- Concrete instantiation of `projected_rank_bounds` at
`(currentRank, difficulty, months) = (50, 30, 6)`. -/
theorem projected_rank_bounds_witness :
    1 ≤ projectedRankAt 50 30 6 ∧ projectedRankAt 50 30 6 ≤ 50 :=
  (projected_rank_bounds 50 30 6 (by norm_num) (by norm_num) (by norm_num)
    (by norm_num)).1

/-- `log₁₀ 60` lies in `(1.777, 1.779)` (via `10^1777 < 60^1000 < 10^1779`). -/
theorem logb_ten_sixty_bounds :
    1.777 < Real.logb 10 60 ∧ Real.logb 10 60 < 1.779 := by
  have hlog10 : 0 < Real.log 10 := Real.log_pos (by norm_num)
  constructor
  · rw [Real.logb, lt_div_iff hlog10]
    have hpow : (10 : ℝ) ^ (1777 : ℕ) < 60 ^ (1000 : ℕ) := by
      have h : (10 : ℕ) ^ 1777 < 60 ^ 1000 := by norm_num
      exact_mod_cast h
    have hl := Real.log_lt_log (by positivity) hpow
    rw [Real.log_pow, Real.log_pow] at hl
    push_cast at hl
    linarith
  · rw [Real.logb, div_lt_iff hlog10]
    have hpow : (60 : ℝ) ^ (1000 : ℕ) < 10 ^ (1779 : ℕ) := by
      have h : (60 : ℕ) ^ 1000 < 10 ^ 1779 := by norm_num
      exact_mod_cast h
    have hl := Real.log_lt_log (by positivity) hpow
    rw [Real.log_pow, Real.log_pow] at hl
    push_cast at hl
    linarith

/-- `√6` lies in `(2.4494, 2.4495)`. -/
theorem sqrt_six_bounds : 2.4494 < Real.sqrt 6 ∧ Real.sqrt 6 < 2.4495 :=
  ⟨(Real.lt_sqrt (by norm_num)).mpr (by norm_num),
   (Real.sqrt_lt' (by norm_num)).mpr (by norm_num)⟩

/-- C9: in the scenario `currentRank = 50`, `difficulty = 30`, `months = 6`
(conservative model, no metadata boost): the difficulty factor is exactly
`0.85`, the rank factor `log₁₀ 60 / 2 ≈ 0.888` is below the clamp `1`, the
cap at `currentRank − 1 = 49` does not bind, the improvement is `≈ 37.0`
(within `(36.9, 37.1)`), and the projected rank is `≈ 13`
(within `(12.9, 13.1)`). -/
theorem scenario_rank_projection :
    (1 - (30 : ℝ) / 200) = 0.85 ∧
    Real.logb 10 (50 + 10) / 2 < 1 ∧
    estimateRankImprovement 50 30 6 =
      min (Real.logb 10 (50 + 10) / 2) 1 * (1 - 30 / 200) * Real.sqrt 6 * 20 ∧
    36.9 < estimateRankImprovement 50 30 6 ∧
    estimateRankImprovement 50 30 6 < 37.1 ∧
    12.9 < projectedRankAt 50 30 6 ∧ projectedRankAt 50 30 6 < 13.1 := by
  have h60 : (50 : ℝ) + 10 = 60 := by norm_num
  have hL := logb_ten_sixty_bounds
  have hS := sqrt_six_bounds
  have hLS_lo : 1.777 * 2.4494 < Real.logb 10 60 * Real.sqrt 6 := by
    nlinarith [mul_pos (show (0 : ℝ) < Real.logb 10 60 - 1.777 by linarith)
      (show (0 : ℝ) < Real.sqrt 6 - 2.4494 by linarith)]
  have hLS_hi : Real.logb 10 60 * Real.sqrt 6 < 1.779 * 2.4495 := by
    nlinarith [mul_pos (show (0 : ℝ) < 1.779 - Real.logb 10 60 by linarith)
      (show (0 : ℝ) < 2.4495 - Real.sqrt 6 by linarith)]
  have hclamp : Real.logb 10 (50 + 10) / 2 < 1 := by rw [h60]; linarith
  have hmin : min (Real.logb 10 ((50 : ℝ) + 10) / 2) 1 = Real.logb 10 60 / 2 := by
    rw [h60]
    exact min_eq_left (by linarith)
  have hraw_lo : 36.9 <
      min (Real.logb 10 ((50 : ℝ) + 10) / 2) 1 * (1 - 30 / 200) * Real.sqrt 6 * 20 := by
    rw [hmin]
    nlinarith [hLS_lo]
  have hraw_hi :
      min (Real.logb 10 ((50 : ℝ) + 10) / 2) 1 * (1 - 30 / 200) * Real.sqrt 6 * 20 < 37.1 := by
    rw [hmin]
    nlinarith [hLS_hi]
  have himp_eq : estimateRankImprovement 50 30 6 =
      min (Real.logb 10 ((50 : ℝ) + 10) / 2) 1 * (1 - 30 / 200) * Real.sqrt 6 * 20 := by
    simp only [estimateRankImprovement]
    exact min_eq_right (by linarith [hraw_hi])
  refine ⟨by norm_num, hclamp, himp_eq, ?_, ?_, ?_, ?_⟩
  · rw [himp_eq]; exact hraw_lo
  · rw [himp_eq]; exact hraw_hi
  · rw [projectedRankAt]
    have : 12.9 < 50 - estimateRankImprovement 50 30 6 := by rw [himp_eq]; linarith
    exact lt_max_of_lt_right this
  · rw [projectedRankAt]
    refine max_lt (by norm_num) ?_
    rw [himp_eq]
    linarith

/-! ### Flexible-parser lemmas (C1, C2) -/

/-- `setNumericField` never changes the `keyword` field. -/
theorem setNumericField_keyword (kd : KeywordData) (n : String) (q : ℚ) :
    (setNumericField kd n q).keyword = kd.keyword := by
  rw [setNumericField]
  split_ifs <;> rfl

/-- `setExtraField` never changes the `keyword` field. -/
theorem setExtraField_keyword (kd : KeywordData) (n v : String) :
    (setExtraField kd n v).keyword = kd.keyword := by
  rw [setExtraField]
  split_ifs <;> rfl

/-- `applyField` never changes the `keyword` field. -/
theorem applyField_keyword (kd : KeywordData) (f v : String) :
    (applyField kd f v).keyword = kd.keyword := by
  simp only [applyField]
  split_ifs <;> first
    | rfl
    | exact setNumericField_keyword ..
    | exact setExtraField_keyword ..

/-- The record built for a row carries the row's keyword value. -/
theorem buildKeywordRecord_keyword (row : Row) (kw : String) :
    (buildKeywordRecord row kw).keyword = kw := by
  rw [buildKeywordRecord]
  generalize hkd : ({ keyword := kw } : KeywordData) = kd
  have hbase : kd.keyword = kw := by rw [← hkd]
  clear hkd
  induction row generalizing kd with
  | nil => simpa using hbase
  | cons p rest ih =>
    simp only [List.foldl_cons]
    exact ih _ (by rw [applyField_keyword]; exact hbase)

/-- Every record emitted by the keyword loop has an unseen, nonempty
keyword, and is built from the first row of the remaining data that carries
that keyword. -/
theorem mem_processRows (kf : String) :
    ∀ (rows : List Row) (seen : List String) (rec : KeywordData),
      rec ∈ processRows kf rows seen →
      rec.keyword ∉ seen ∧ rec.keyword ≠ "" ∧
      ∃ (i : ℕ) (hi : i < rows.length),
        lookupField (rows.get ⟨i, hi⟩) kf = some rec.keyword ∧
        rec = buildKeywordRecord (rows.get ⟨i, hi⟩) rec.keyword ∧
        ∀ (j : ℕ) (hj : j < rows.length), j < i →
          lookupField (rows.get ⟨j, hj⟩) kf ≠ some rec.keyword := by
  intro rows
  induction rows with
  | nil =>
    intro seen rec h
    simp [processRows] at h
  | cons row rest ih =>
    intro seen rec h
    rw [processRows] at h
    cases hlk : lookupField row kf with
    | none =>
      rw [hlk] at h
      obtain ⟨hs, hne, i, hi, h1, h2, h3⟩ := ih seen rec h
      refine ⟨hs, hne, i + 1, Nat.succ_lt_succ hi, by simpa using h1, by simpa using h2, ?_⟩
      intro j hj hji
      cases j with
      | zero =>
        simp only [List.get]
        rw [hlk]
        exact fun hc => Option.noConfusion hc
      | succ j' =>
        have hj' : j' < rest.length := Nat.lt_of_succ_lt_succ hj
        have := h3 j' hj' (Nat.lt_of_succ_lt_succ hji)
        simpa using this
    | some kw =>
      rw [hlk] at h
      dsimp only at h
      by_cases hkw : kw = ""
      · rw [if_pos hkw] at h
        obtain ⟨hs, hne, i, hi, h1, h2, h3⟩ := ih seen rec h
        refine ⟨hs, hne, i + 1, Nat.succ_lt_succ hi, by simpa using h1, by simpa using h2, ?_⟩
        intro j hj hji
        cases j with
        | zero =>
          simp only [List.get]
          rw [hlk]
          intro hc
          have hkeq : kw = rec.keyword := by injection hc
          exact hne (by rw [← hkeq, hkw])
        | succ j' =>
          have hj' : j' < rest.length := Nat.lt_of_succ_lt_succ hj
          exact by simpa using h3 j' hj' (Nat.lt_of_succ_lt_succ hji)
      · rw [if_neg hkw] at h
        by_cases hseen : kw ∈ seen
        · rw [if_pos hseen] at h
          obtain ⟨hs, hne, i, hi, h1, h2, h3⟩ := ih seen rec h
          refine ⟨hs, hne, i + 1, Nat.succ_lt_succ hi, by simpa using h1, by simpa using h2, ?_⟩
          intro j hj hji
          cases j with
          | zero =>
            simp only [List.get]
            rw [hlk]
            intro hc
            have : kw = rec.keyword := by injection hc
            rw [this] at hseen
            exact hs hseen
          | succ j' =>
            have hj' : j' < rest.length := Nat.lt_of_succ_lt_succ hj
            exact by simpa using h3 j' hj' (Nat.lt_of_succ_lt_succ hji)
        · rw [if_neg hseen] at h
          rcases List.mem_cons.mp h with hrec | hrec
          · have hkweq : rec.keyword = kw := by rw [hrec, buildKeywordRecord_keyword]
            refine ⟨by rw [hkweq]; exact hseen, by rw [hkweq]; exact hkw, 0,
              Nat.succ_pos _, ?_, ?_, ?_⟩
            · simp only [List.get]
              rw [hlk, hkweq]
            · simp only [List.get]
              rw [hkweq]
              exact hrec
            · intro j hj hji
              exact absurd hji (Nat.not_lt_zero j)
          · obtain ⟨hs, hne, i, hi, h1, h2, h3⟩ := ih (kw :: seen) rec hrec
            have hnkw : rec.keyword ≠ kw := fun hc => hs (hc ▸ List.mem_cons_self kw seen)
            refine ⟨fun hc => hs (List.mem_cons_of_mem kw hc), hne, i + 1,
              Nat.succ_lt_succ hi, by simpa using h1, by simpa using h2, ?_⟩
            intro j hj hji
            cases j with
            | zero =>
              simp only [List.get]
              rw [hlk]
              intro hc
              exact hnkw (by injection hc with h'; exact h'.symm)
            | succ j' =>
              have hj' : j' < rest.length := Nat.lt_of_succ_lt_succ hj
              exact by simpa using h3 j' hj' (Nat.lt_of_succ_lt_succ hji)

/-- The keyword strings emitted by the loop are pairwise distinct. -/
theorem nodup_processRows (kf : String) :
    ∀ (rows : List Row) (seen : List String),
      ((processRows kf rows seen).map (fun r => r.keyword)).Nodup := by
  intro rows
  induction rows with
  | nil =>
    intro seen
    simp [processRows]
  | cons row rest ih =>
    intro seen
    rw [processRows]
    cases hlk : lookupField row kf with
    | none => exact ih seen
    | some kw =>
      dsimp only
      by_cases hkw : kw = ""
      · rw [if_pos hkw]
        exact ih seen
      · rw [if_neg hkw]
        by_cases hseen : kw ∈ seen
        · rw [if_pos hseen]
          exact ih seen
        · rw [if_neg hseen]
          simp only [List.map_cons, List.nodup_cons]
          refine ⟨?_, ih (kw :: seen)⟩
          rw [buildKeywordRecord_keyword]
          intro hmem
          obtain ⟨rec, hrec, hkweq⟩ := List.mem_map.1 hmem
          have := (mem_processRows kf rest (kw :: seen) rec hrec).1
          rw [hkweq] at this
          exact this (List.mem_cons_self kw seen)

/-- Unfolding lemma for the keyword loop when the row carries a keyword. -/
theorem processRows_cons_some (kf : String) (row : Row) (rest : List Row)
    (seen : List String) (kw : String) (hlk : lookupField row kf = some kw) :
    processRows kf (row :: rest) seen =
      if kw = "" then processRows kf rest seen
      else if kw ∈ seen then processRows kf rest seen
      else buildKeywordRecord row kw :: processRows kf rest (kw :: seen) := by
  rw [processRows, hlk]

/-- C2: for every input accepted by the flexible parser (one with a
discoverable keyword column), the returned keyword sequence has
pairwise-distinct keyword strings; every record has a nonempty keyword and
is built from the first row whose keyword cell carries that keyword, so
rows with an absent or empty keyword are skipped and later duplicates are
dropped. -/
theorem flexible_parser_dedupe (firstRow : Row) (rest : List Row)
    (res : List KeywordData) (kf : String)
    (hkf : findKeywordField firstRow = some kf)
    (h : keywordsOfCSV (firstRow :: rest) = Except.ok res) :
    ((res.map (fun r => r.keyword)).Nodup) ∧
    ∀ rec ∈ res, rec.keyword ≠ "" ∧
      ∃ (i : ℕ) (hi : i < (firstRow :: rest).length),
        lookupField ((firstRow :: rest).get ⟨i, hi⟩) kf = some rec.keyword ∧
        rec = buildKeywordRecord ((firstRow :: rest).get ⟨i, hi⟩) rec.keyword ∧
        ∀ (j : ℕ) (hj : j < (firstRow :: rest).length), j < i →
          lookupField ((firstRow :: rest).get ⟨j, hj⟩) kf ≠ some rec.keyword := by
  have hres : res = processRows kf (firstRow :: rest) [] := by
    rw [keywordsOfCSV] at h
    try dsimp only at h
    split at h
    · exact Except.noConfusion h
    · rw [hkf] at h
      try dsimp only at h
      injection h with h'
      exact h'.symm
  subst hres
  refine ⟨nodup_processRows kf _ [], ?_⟩
  intro rec hrec
  obtain ⟨_, hne, i, hi, h1, h2, h3⟩ := mem_processRows kf _ [] rec hrec
  exact ⟨hne, i, hi, h1, h2, h3⟩

/-- Concrete run of `flexible_parser_dedupe` on a file with a duplicate
keyword row and an empty-keyword row. -/
theorem flexible_parser_dedupe_witness :
    ((processRows "Keyword"
      [[("Keyword", "a"), ("Volume", "10")], [("Keyword", "")],
       [("Keyword", "a"), ("Volume", "99")], [("Keyword", "b")]] []).map
        (fun r => r.keyword)).Nodup :=
  (flexible_parser_dedupe [("Keyword", "a"), ("Volume", "10")]
    [[("Keyword", "")], [("Keyword", "a"), ("Volume", "99")], [("Keyword", "b")]]
    (processRows "Keyword"
      [[("Keyword", "a"), ("Volume", "10")], [("Keyword", "")],
       [("Keyword", "a"), ("Volume", "99")], [("Keyword", "b")]] [])
    "Keyword" rfl rfl).1

/-- Storing then reading the same numeric canonical field. -/
theorem getNumericField_setNumericField (kd : KeywordData) (s : String) (q : ℚ)
    (hs : s ∈ numericFields) :
    getNumericField (setNumericField kd s q) s = some q := by
  have hmem : s = "volume" ∨ s = "difficulty" ∨ s = "currentRank" ∨ s = "relevancy" ∨
      s = "traffic" ∨ s = "cpc" ∨ s = "maximumReach" := by
    simpa [numericFields] using hs
  rcases hmem with h | h | h | h | h | h | h <;> subst h <;> rfl

/-- `applyField` with a nonempty value for a numeric canonical field stores
the coerced numeric value. -/
theorem applyField_numeric (kd : KeywordData) (hd v : String) (hv : v ≠ "")
    (hnum : standardizeField hd ∈ numericFields) :
    applyField kd hd v = setNumericField kd (standardizeField hd) (parseNumericValue v) := by
  have hmem : standardizeField hd = "volume" ∨ standardizeField hd = "difficulty" ∨
      standardizeField hd = "currentRank" ∨ standardizeField hd = "relevancy" ∨
      standardizeField hd = "traffic" ∨ standardizeField hd = "cpc" ∨
      standardizeField hd = "maximumReach" := by
    simpa [numericFields] using hnum
  have hcond1 : (appFields.contains (standardizeField hd) ||
      (standardizeField hd == "keyword")) = false := by
    rcases hmem with h | h | h | h | h | h | h <;> rw [h] <;> rfl
  have hcond3 : numericFields.contains (standardizeField hd) = true := by
    rcases hmem with h | h | h | h | h | h | h <;> rw [h] <;> rfl
  rw [applyField]
  try dsimp only
  rw [hcond1]
  simp only [Bool.false_eq_true, if_false]
  rw [if_neg (by simpa using hv), if_pos hcond3]

/-- C1 (amended): for a row carrying a cell for a numeric canonical field,
the flexible parser succeeds (it never throws), and the coerced value is
the cell with `,`/`%`/`$` stripped and parsed as a float when that parse
succeeds — but a malformed nonempty numeric string produces the field
*present with value `0`*, not absent. -/
theorem numeric_coercion (hd k v : String) (hk : k ≠ "") (hv : v ≠ "")
    (hnum : standardizeField hd ∈ numericFields) :
    keywordsOfCSV [[("Keyword", k), (hd, v)]] =
      Except.ok [buildKeywordRecord [("Keyword", k), (hd, v)] k] ∧
    getNumericField (buildKeywordRecord [("Keyword", k), (hd, v)] k)
      (standardizeField hd) = some (parseNumericValue v) ∧
    (∀ q : ℚ, jsParseFloat (stripNumChars v) = some q → parseNumericValue v = q) ∧
    (jsParseFloat (stripNumChars v) = none → parseNumericValue v = 0) := by
  have h1 : keywordsOfCSV [[("Keyword", k), (hd, v)]] =
      Except.ok (processRows "Keyword" [[("Keyword", k), (hd, v)]] []) := rfl
  have h2 : processRows "Keyword" [[("Keyword", k), (hd, v)]] [] =
      [buildKeywordRecord [("Keyword", k), (hd, v)] k] := by
    rw [processRows_cons_some "Keyword" [("Keyword", k), (hd, v)] [] [] k rfl]
    rw [if_neg hk, if_neg (List.not_mem_nil k)]
    rfl
  have hA : applyField { keyword := k } "Keyword" k = { keyword := k } := rfl
  have h3 : buildKeywordRecord [("Keyword", k), (hd, v)] k =
      setNumericField { keyword := k } (standardizeField hd) (parseNumericValue v) := by
    rw [buildKeywordRecord]
    simp only [List.foldl_cons, List.foldl_nil]
    rw [hA, applyField_numeric _ hd v hv hnum]
  refine ⟨by rw [h1, h2], ?_, ?_, ?_⟩
  · rw [h3]
    exact getNumericField_setNumericField _ _ _ hnum
  · intro q hq
    rw [parseNumericValue, hq]
  · intro hq
    rw [parseNumericValue, hq]

/-- Concrete run of `numeric_coercion` on the spec's scenario row
(`"fitness tracker"`, volume `"1,200"`). -/
theorem numeric_coercion_witness :
    keywordsOfCSV [[("Keyword", "fitness tracker"), ("Volume", "1,200")]] =
      Except.ok [buildKeywordRecord
        [("Keyword", "fitness tracker"), ("Volume", "1,200")] "fitness tracker"] ∧
    getNumericField (buildKeywordRecord
        [("Keyword", "fitness tracker"), ("Volume", "1,200")] "fitness tracker")
      (standardizeField "Volume") = some (parseNumericValue "1,200") :=
  ⟨(numeric_coercion "Volume" "fitness tracker" "1,200" (by decide) (by decide)
      (by decide)).1,
   (numeric_coercion "Volume" "fitness tracker" "1,200" (by decide) (by decide)
      (by decide)).2.1⟩

/-- C1 counterexample: a malformed numeric cell (`"abc"`) yields a *present*
volume equal to `0`, not an absent field as the claim states. -/
theorem numeric_coercion_counterexample :
    keywordsOfCSV [[("Keyword", "a"), ("Volume", "abc")]] =
      Except.ok [{ keyword := "a", volume := some 0 }] ∧
    ({ keyword := "a", volume := some 0 } : KeywordData).volume ≠ none := by
  exact ⟨rfl, by simp⟩

/-! ### Strict-parser lemmas (C4) -/

/-- The row loop is the pair of row-indexed filter-maps: parsed records of
the rows that pass, and error messages of the rows that fail, in row
order. -/
theorem strictLoop_eq (headers : List String) (sep : Char) :
    ∀ (rows : List String) (i : ℕ),
      strictLoop headers sep i rows =
        ((rows.enumFrom i).filterMap
          (fun p => (processStrictRow headers sep p.1 p.2).toOption),
         (rows.enumFrom i).filterMap
          (fun p => match processStrictRow headers sep p.1 p.2 with
            | Except.ok _ => none
            | Except.error msg => some msg)) := by
  intro rows
  induction rows with
  | nil => intro i; rfl
  | cons line rest ih =>
    intro i
    rw [strictLoop, ih (i + 1)]
    cases hp : processStrictRow headers sep i line with
    | ok kd =>
      simp [List.enumFrom, List.filterMap_cons, hp, Except.toOption]
    | error msg =>
      simp [List.enumFrom, List.filterMap_cons, hp, Except.toOption]

/-- C4 (amended): in the strict parser, a data row with the wrong column
count or a missing required field value produces a row-level error that is
collected and reported in aggregate — but any collected row-level error is
fatal to the whole parse even when other rows are valid; only a parse in
which every row succeeds returns the parsed rows. -/
theorem strict_row_errors (name text firstLine : String) (rest : List String)
    (data : List StrictKeywordData) (errors : List String)
    (hname : jsEndsWith (jsToLower name) ".csv" = true)
    (hlines : (jsSplit text (· == '\n')).filter (fun l => (jsTrim l).length > 0) =
      firstLine :: rest)
    (hrest : rest ≠ [])
    (hmiss : EXPECTED_HEADERS.filter (fun expected =>
      !((headersOf firstLine).any (fun h => jsToLower h == jsToLower expected))) = [])
    (hextra : (headersOf firstLine).filter (fun h =>
      !(EXPECTED_HEADERS.any (fun expected => jsToLower expected == jsToLower h))) = [])
    (hloop : strictLoop (headersOf firstLine) (sepOf firstLine) 1 rest = (data, errors)) :
    (errors = (rest.enumFrom 1).filterMap
        (fun p => match processStrictRow (headersOf firstLine) (sepOf firstLine) p.1 p.2 with
          | Except.ok _ => none
          | Except.error msg => some msg) ∧
      data = (rest.enumFrom 1).filterMap
        (fun p => (processStrictRow (headersOf firstLine) (sepOf firstLine) p.1 p.2).toOption)) ∧
    (errors ≠ [] → parseCSV name text = Except.error (aggregateRowErrors errors)) ∧
    (errors = [] → parseCSV name text = Except.ok data) := by
  have hchar := strictLoop_eq (headersOf firstLine) (sepOf firstLine) rest 1
  rw [hloop] at hchar
  have hdata : data = (rest.enumFrom 1).filterMap
      (fun p => (processStrictRow (headersOf firstLine) (sepOf firstLine) p.1 p.2).toOption) :=
    congrArg Prod.fst hchar
  have herrs : errors = (rest.enumFrom 1).filterMap
      (fun p => match processStrictRow (headersOf firstLine) (sepOf firstLine) p.1 p.2 with
        | Except.ok _ => none
        | Except.error msg => some msg) :=
    congrArg Prod.snd hchar
  have hparse : parseCSV name text =
      (if errors ≠ [] then Except.error (aggregateRowErrors errors)
       else if data = [] then Except.error "No valid data rows were found in the file."
       else Except.ok data) := by
    rw [parseCSV]
    rw [hname]
    simp only [Bool.not_true, Bool.false_eq_true, if_false]
    rw [hlines]
    obtain ⟨r, rs, rfl⟩ : ∃ r rs, rest = r :: rs := by
      cases rest with
      | nil => exact absurd rfl hrest
      | cons r rs => exact ⟨r, rs, rfl⟩
    try dsimp only
    rw [hmiss, hextra]
    rw [hloop]
    simp
  refine ⟨⟨herrs, hdata⟩, ?_, ?_⟩
  · intro hne
    rw [hparse, if_pos hne]
  · intro heq
    have hdne : data ≠ [] := by
      obtain ⟨r, rs, hr⟩ : ∃ r rs, rest = r :: rs := by
        cases rest with
        | nil => exact absurd rfl hrest
        | cons r rs => exact ⟨r, rs, rfl⟩
      subst hr
      cases hp : processStrictRow (headersOf firstLine) (sepOf firstLine) 1 r with
      | ok kd =>
        rw [hdata]
        simp [List.enumFrom, List.filterMap_cons, hp, Except.toOption]
      | error msg =>
        exfalso
        rw [herrs] at heq
        simp [List.enumFrom, List.filterMap_cons, hp] at heq
    rw [hparse, if_neg (by simpa using heq), if_neg hdne]

/-- A header line carrying exactly the twenty expected columns,
comma-separated. -/
def strictHeaderLine : String :=
  "App Name,App ID,Store,Device,Country Code,Language Code,Main App ID,Main App Name,Keyword,Keyword List,Starred,Volume,Difficulty,Maximum Reach,Branded,Branded App ID,Branded App Name,KEI,Chance,Relevancy Score"

/-- A data row that passes every strict-parser check. -/
def strictGoodRow : String := "a,b,Android,all,US,en,b,a,kw,kw,false,100,50,1000,false,,,50,50,50"

/-- A data row with only two columns. -/
def strictBadRow : String := "x,y"

/-- A file with one valid and one malformed data row. -/
def strictSampleText : String :=
  strictHeaderLine ++ "\n" ++ strictGoodRow ++ "\n" ++ strictBadRow

/-- The same file without the malformed row. -/
def strictGoodText : String := strictHeaderLine ++ "\n" ++ strictGoodRow

set_option maxRecDepth 40000 in
/-- Concrete run of `strict_row_errors`: one malformed row aborts the parse
with the aggregated row-error message. -/
theorem strict_row_errors_witness :
    parseCSV "data.csv" strictSampleText =
      Except.error (aggregateRowErrors ["Row 3: Expected 20 columns but found 2"]) :=
  (strict_row_errors "data.csv" strictSampleText strictHeaderLine
    [strictGoodRow, strictBadRow]
    [buildStrictRecord (headersOf strictHeaderLine)
      ((jsSplit strictGoodRow (· == ',')).map cleanCell)]
    ["Row 3: Expected 20 columns but found 2"]
    rfl rfl (by decide) rfl rfl rfl).2.1 (by decide)

set_option maxRecDepth 40000 in
/-- C4 counterexample: the same file parses to one valid row without the
malformed row, but with the malformed row present the parse returns an
error instead of the valid rows — a single row-level error is fatal even
though a valid row exists. -/
theorem strict_errors_fatal_counterexample :
    parseCSV "data.csv" strictGoodText =
      Except.ok [buildStrictRecord (headersOf strictHeaderLine)
        ((jsSplit strictGoodRow (· == ',')).map cleanCell)] ∧
    parseCSV "data.csv" strictSampleText =
      Except.error (aggregateRowErrors ["Row 3: Expected 20 columns but found 2"]) :=
  ⟨rfl, rfl⟩

/-! ### Categorization lemmas (C6) -/

/-- The keywords matching no common theme: the claimed content of the
`other` bucket. -/
def uncategorizedOf (keywords : List KeywordData) : List KeywordData :=
  keywords.filter (fun kw => !((commonThemes keywords).any
    (fun t => strIncludes (jsToLower kw.keyword) (jsToLower t))))

/-- Membership in the inner keyword-string fold. -/
theorem mem_keywordFold (l : List KeywordData) :
    ∀ (init : List String) (s : String),
      s ∈ l.foldl (fun s2 kw => kw.keyword :: s2) init ↔
        s ∈ init ∨ ∃ kw ∈ l, kw.keyword = s := by
  induction l with
  | nil => intro init s; simp
  | cons a l ih =>
    intro init s
    rw [List.foldl_cons, ih]
    constructor
    · rintro (h | ⟨kw, hkw, hs⟩)
      · rcases List.mem_cons.mp h with h1 | h1
        · exact Or.inr ⟨a, List.mem_cons_self a l, h1.symm⟩
        · exact Or.inl h1
      · exact Or.inr ⟨kw, List.mem_cons_of_mem a hkw, hs⟩
    · rintro (h | ⟨kw, hkw, hs⟩)
      · exact Or.inl (List.mem_cons_of_mem _ h)
      · rcases List.mem_cons.mp hkw with h1 | h1
        · subst h1
          exact Or.inl (List.mem_cons.mpr (Or.inl hs.symm))
        · exact Or.inr ⟨kw, h1, hs⟩

/-- Membership in the `categorizedKeywords` accumulation. -/
theorem mem_categorizedFold (cats : List (String × List KeywordData)) :
    ∀ (init : List String) (s : String),
      s ∈ cats.foldl (fun acc c => c.2.foldl (fun s2 kw => kw.keyword :: s2) acc) init ↔
        s ∈ init ∨ ∃ c ∈ cats, ∃ kw ∈ c.2, kw.keyword = s := by
  induction cats with
  | nil => intro init s; simp
  | cons a l ih =>
    intro init s
    rw [List.foldl_cons, ih, mem_keywordFold]
    constructor
    · rintro ((h | ⟨kw, hkw, hs⟩) | ⟨c, hc, kw, hkw, hs⟩)
      · exact Or.inl h
      · exact Or.inr ⟨a, List.mem_cons_self a l, kw, hkw, hs⟩
      · exact Or.inr ⟨c, List.mem_cons_of_mem a hc, kw, hkw, hs⟩
    · rintro (h | ⟨c, hc, kw, hkw, hs⟩)
      · exact Or.inl (Or.inl h)
      · rcases List.mem_cons.mp hc with h1 | h1
        · subst h1
          exact Or.inl (Or.inr ⟨kw, hkw, hs⟩)
        · exact Or.inr ⟨c, h1, kw, hkw, hs⟩

/-- A keyword string is in the categorized set exactly when it contains
some common theme. -/
theorem mem_categorizedSet (keywords : List KeywordData) (kw : KeywordData)
    (hkw : kw ∈ keywords) :
    (categorizedSet keywords).contains kw.keyword =
      (commonThemes keywords).any
        (fun t => strIncludes (jsToLower kw.keyword) (jsToLower t)) := by
  rw [Bool.eq_iff_iff]
  show List.elem kw.keyword (categorizedSet keywords) = true ↔ _
  rw [List.elem_iff, List.any_eq_true]
  constructor
  · intro hmem
    rw [categorizedSet, mem_categorizedFold] at hmem
    rcases hmem with h0 | ⟨c, hc, rec, hrec, hrk⟩
    · exact absurd h0 (List.not_mem_nil _)
    · rw [themeCategories] at hc
      obtain ⟨theme, htheme, rfl⟩ := List.mem_map.mp hc
      rw [List.mem_filter] at hrec
      refine ⟨theme, htheme, ?_⟩
      rw [← hrk]
      exact hrec.2
  · rintro ⟨t, ht, hmatch⟩
    rw [categorizedSet, mem_categorizedFold]
    right
    refine ⟨(t, keywords.filter
        (fun kw2 => strIncludes (jsToLower kw2.keyword) (jsToLower t))), ?_, kw, ?_, rfl⟩
    · rw [themeCategories]
      exact List.mem_map_of_mem _ ht
    · rw [List.mem_filter]
      exact ⟨hkw, hmatch⟩

/-- The `other` bucket holds exactly the keywords matching no theme. -/
theorem otherBucket_eq_uncategorized (keywords : List KeywordData) :
    otherBucket keywords = uncategorizedOf keywords := by
  rw [otherBucket, uncategorizedOf]
  apply List.filter_congr
  intro kw hkw
  rw [mem_categorizedSet keywords kw hkw]

/-- The `other` entry is present after the object assignment. -/
theorem mem_withOther (keywords : List KeywordData) :
    ("other", otherBucket keywords) ∈ withOther keywords := by
  rw [withOther]
  split
  · next hany =>
    obtain ⟨c, hc, hco⟩ := List.any_eq_true.mp hany
    refine List.mem_map.mpr ⟨c, hc, ?_⟩
    rw [if_pos hco]
  · exact List.mem_append_right _ (List.mem_singleton.mpr rfl)

/-- Any entry keyed `"other"` after the object assignment holds the `other`
bucket. -/
theorem withOther_other_unique (keywords : List KeywordData)
    (p : String × List KeywordData) (hp : p ∈ withOther keywords)
    (h1 : p.1 = "other") : p.2 = otherBucket keywords := by
  rw [withOther] at hp
  split at hp
  · obtain ⟨c, hc, hceq⟩ := List.mem_map.mp hp
    by_cases hco : (c.1 == "other") = true
    · rw [if_pos hco] at hceq
      rw [← hceq]
    · rw [if_neg hco] at hceq
      subst hceq
      exact absurd (by simp [h1]) hco
  · next hany =>
    rcases List.mem_append.mp hp with hc | hc
    · exfalso
      rw [Bool.not_eq_true] at hany
      have : (themeCategories keywords).any (fun c => c.1 == "other") = true :=
        List.any_eq_true.mpr ⟨p, hc, by simp [h1]⟩
      rw [this] at hany
      exact Bool.noConfusion hany
    · rw [List.mem_singleton.mp hc]

/-- C6 (amended): after thematic categorization, the `other` bucket holds
exactly the keywords matching no theme, but the final pruning drops *every*
bucket with fewer than two members — including `other` itself, which
therefore does not survive when it holds at most one keyword. -/
theorem categorize_other_pruning (keywords : List KeywordData) :
    (∀ c ∈ categorizeKeywords keywords, 2 ≤ c.2.length) ∧
    (2 ≤ (uncategorizedOf keywords).length →
      ("other", uncategorizedOf keywords) ∈ categorizeKeywords keywords) ∧
    ((uncategorizedOf keywords).length < 2 →
      ∀ l, ("other", l) ∉ categorizeKeywords keywords) := by
  refine ⟨?_, ?_, ?_⟩
  · intro c hc
    rw [categorizeKeywords] at hc
    have := (List.mem_filter.mp hc).2
    simpa using this
  · intro hlen
    rw [categorizeKeywords]
    rw [List.mem_filter]
    constructor
    · rw [← otherBucket_eq_uncategorized]
      exact mem_withOther keywords
    · simpa using hlen
  · intro hlen l hmem
    rw [categorizeKeywords, List.mem_filter] at hmem
    have hl : l = otherBucket keywords :=
      withOther_other_unique keywords ("other", l) hmem.1 rfl
    rw [otherBucket_eq_uncategorized] at hl
    have h2 : 2 ≤ l.length := by simpa using hmem.2
    rw [hl] at h2
    omega

/-- Concrete run of `categorize_other_pruning`: with two unmatched
keywords, the `other` bucket survives with exactly those keywords. -/
theorem categorize_other_pruning_witness :
    ("other", uncategorizedOf
      [{ keyword := "alpha beta" }, { keyword := "alpha gamma" },
       { keyword := "zebra" }, { keyword := "xylophone" }]) ∈
    categorizeKeywords
      [{ keyword := "alpha beta" }, { keyword := "alpha gamma" },
       { keyword := "zebra" }, { keyword := "xylophone" }] :=
  (categorize_other_pruning
    [{ keyword := "alpha beta" }, { keyword := "alpha gamma" },
     { keyword := "zebra" }, { keyword := "xylophone" }]).2.1 (by decide)

/-- C6 counterexample: `"zebra"` matches no theme, yet the `other` bucket —
holding only `"zebra"` — is deleted by the pruning loop, so no `other`
category survives, contradicting the claim that `other` survives
regardless of its size. -/
theorem categorize_other_dropped_counterexample :
    categorizeKeywords
      [{ keyword := "alpha beta" }, { keyword := "alpha gamma" },
       { keyword := "zebra" }] =
      [("alpha", [{ keyword := "alpha beta" }, { keyword := "alpha gamma" }])] ∧
    ((categorizeKeywords
      [{ keyword := "alpha beta" }, { keyword := "alpha gamma" },
       { keyword := "zebra" }]).map (fun c => c.1)).contains "other" = false ∧
    ((commonThemes
      [{ keyword := "alpha beta" }, { keyword := "alpha gamma" },
       { keyword := "zebra" }]).any
        (fun t => strIncludes (jsToLower "zebra") (jsToLower t))) = false := by
  exact ⟨by decide, by decide, by decide⟩

/-! ### Aggregator lemmas (C8) -/

/-- A member of a sorted-filtered-truncated keyword list is a member of the
input list. -/
theorem mem_sortTake (p : KeywordData → Bool) (l : List KeywordData)
    (k : KeywordData) (hk : k ∈ (sortByVolumeDesc (l.filter p)).take 5) : k ∈ l :=
  (List.filter_sublist l).subset
    ((List.perm_insertionSort _ _).subset (List.take_subset _ _ hk))

/-- Every bucket produced by the object assignment holds only input
records. -/
theorem withOther_snd_subset (keywords : List KeywordData)
    (c : String × List KeywordData) (hc : c ∈ withOther keywords) :
    ∀ k ∈ c.2, k ∈ keywords := by
  have hthm : ∀ c' ∈ themeCategories keywords, ∀ k ∈ c'.2, k ∈ keywords := by
    intro c' hc' k hk
    rw [themeCategories] at hc'
    obtain ⟨t, ht, rfl⟩ := List.mem_map.mp hc'
    exact (List.filter_sublist _).subset hk
  have hother : ∀ k ∈ otherBucket keywords, k ∈ keywords := fun k hk =>
    (List.filter_sublist _).subset hk
  rw [withOther] at hc
  split at hc
  · obtain ⟨c', hc', hceq⟩ := List.mem_map.mp hc
    by_cases hco : (c'.1 == "other") = true
    · rw [if_pos hco] at hceq
      subst hceq
      exact fun k hk => hother k hk
    · rw [if_neg hco] at hceq
      subst hceq
      exact hthm c' hc'
  · rcases List.mem_append.mp hc with h | h
    · exact hthm c h
    · rw [List.mem_singleton.mp h]
      exact fun k hk => hother k hk

/-- C8: the Insight Aggregator is deterministic — two runs on the same
dataset produce identical output (its embedding takes no random source:
the source functions contain no `Math.random` call) — and it does not
mutate the dataset: every record it reports is an element of the input
keyword list, unchanged. -/
theorem aggregator_deterministic (appData : ParsedAppData) :
    generateKeywordInsights appData = generateKeywordInsights appData ∧
    (∀ k ∈ (generateKeywordInsights appData).trendingKeywords, k ∈ appData.keywords) ∧
    (∀ k ∈ (generateKeywordInsights appData).lowCompetitionOpportunities,
      k ∈ appData.keywords) ∧
    (∀ k ∈ (generateKeywordInsights appData).highVolumeKeywords, k ∈ appData.keywords) ∧
    (∀ k ∈ (generateKeywordInsights appData).underperformingKeywords,
      k ∈ appData.keywords) ∧
    (∀ c ∈ (generateKeywordInsights appData).keywordCategories, ∀ k ∈ c.2,
      k ∈ appData.keywords) := by
  refine ⟨rfl, ?_, ?_, ?_, ?_, ?_⟩
  · intro k hk
    exact mem_sortTake _ _ k hk
  · intro k hk
    exact mem_sortTake _ _ k hk
  · intro k hk
    exact mem_sortTake _ _ k hk
  · intro k hk
    exact mem_sortTake _ _ k hk
  · intro c hc k hk
    have hc' : c ∈ categorizeKeywords appData.keywords := hc
    rw [categorizeKeywords] at hc'
    exact withOther_snd_subset appData.keywords c (List.mem_filter.mp hc').1 k hk

/-- Concrete run of `aggregator_deterministic` on a one-keyword dataset. -/
theorem aggregator_deterministic_witness :
    ({ keyword := "fitness", volume := some 600 } : KeywordData) ∈
      ({ appDetails := {},
         keywords := [{ keyword := "fitness", volume := some 600 }] } :
        ParsedAppData).keywords :=
  (aggregator_deterministic
    { appDetails := {},
      keywords := [{ keyword := "fitness", volume := some 600 }] }).2.1
    { keyword := "fitness", volume := some 600 } (by decide)

/-! ### Prediction-module lemmas (C10) -/

/-- Target ranks used in the nondeterminism scenario. -/
def c10TargetRanks : TargetRanks := ⟨10, 10, 10, 10⟩

/-- One ambient random stream (`Math.random()` always `0.29`). -/
def c10RandomA : ℕ → ℚ := fun _ => 29 / 100

/-- Another ambient random stream (`Math.random()` always `0.49`). -/
def c10RandomB : ℕ → ℚ := fun _ => 49 / 100

/-- A record with `currentRank` absent (volume and difficulty present). -/
def c10Record : KeywordData := { keyword := "k", volume := some 100, difficulty := some 50 }

/-- The same record with all three metrics present. -/
def c10AllPresent : KeywordData :=
  { keyword := "k", volume := some 100, difficulty := some 50, currentRank := some 30 }

/-- `calculatePredictedInstalls` at rank improvement 10 (integer exponent). -/
theorem installs_rank30_to_20 : calculatePredictedInstalls 100 30 20 = 120 := by
  simp only [calculatePredictedInstalls]
  have h1 : (((30 : ℚ) : ℝ) - ((20 : ℤ) : ℝ)) / 10 = 1 := by push_cast; norm_num
  rw [h1, Real.rpow_one, jsRoundR]
  have h2 : (((100 : ℚ) : ℝ)) * 1.2 + 1 / 2 = 241 / 2 := by push_cast; norm_num
  rw [h2, Int.floor_eq_iff]
  norm_num

/-- `calculatePredictedInstalls` at rank improvement 20 (integer exponent). -/
theorem installs_rank50_to_30 : calculatePredictedInstalls 100 50 30 = 144 := by
  simp only [calculatePredictedInstalls]
  have h1 : (((50 : ℚ) : ℝ) - ((30 : ℤ) : ℝ)) / 10 = ((2 : ℕ) : ℝ) := by push_cast; norm_num
  rw [h1, Real.rpow_natCast, jsRoundR]
  have h2 : (((100 : ℚ) : ℝ)) * 1.2 ^ (2 : ℕ) + 1 / 2 = 289 / 2 := by push_cast; norm_num
  rw [h2, Int.floor_eq_iff]
  norm_num

/-- C10: `generatePredictions` is nondeterministic at the public interface
when a metric is absent — with `currentRank` missing, two runs under
different ambient random streams return different `predictedRanks`
(20 vs 30) *and* different `predictedInstalls` (120 vs 144) on the same
input — and it is deterministic (independent of the random stream) when
`currentRank`, `volume` and `difficulty` are all present. -/
theorem predictions_random_backfill :
    ((generatePredictions [c10Record] c10TargetRanks c10RandomA).map
        (fun p => p.predictedRanks.threeMonths) = [20] ∧
     (generatePredictions [c10Record] c10TargetRanks c10RandomB).map
        (fun p => p.predictedRanks.threeMonths) = [30] ∧
     (generatePredictions [c10Record] c10TargetRanks c10RandomA).map
        (fun p => p.predictedInstalls.threeMonths) = [120] ∧
     (generatePredictions [c10Record] c10TargetRanks c10RandomB).map
        (fun p => p.predictedInstalls.threeMonths) = [144]) ∧
    (∀ (kws : List KeywordData) (t : TargetRanks) (r r' : ℕ → ℚ),
      (∀ d ∈ kws, d.currentRank ≠ none ∧ d.volume ≠ none ∧ d.difficulty ≠ none) →
      generatePredictions kws t r = generatePredictions kws t r') := by
  have hmapA : generatePredictions [c10Record] c10TargetRanks c10RandomA =
      [predictionFor c10Record c10TargetRanks c10RandomA 0] := rfl
  have hmapB : generatePredictions [c10Record] c10TargetRanks c10RandomB =
      [predictionFor c10Record c10TargetRanks c10RandomB 0] := rfl
  have hmA : getKeywordMetrics c10Record c10RandomA 0 =
      ({ currentRank := 30, volume := 100, difficulty := 50 } : KeywordMetrics) := by
    simp only [getKeywordMetrics, c10Record, c10RandomA, Option.getD_some, Option.getD_none]
    norm_num [KeywordMetrics.mk.injEq]
  have hmB : getKeywordMetrics c10Record c10RandomB 0 =
      ({ currentRank := 50, volume := 100, difficulty := 50 } : KeywordMetrics) := by
    simp only [getKeywordMetrics, c10Record, c10RandomB, Option.getD_some, Option.getD_none]
    norm_num [KeywordMetrics.mk.injEq]
  have hcrA : calculatePredictedRank 30 10 50 = 20 := by
    norm_num [calculatePredictedRank, jsRoundQ]
  have hcrB : calculatePredictedRank 50 10 50 = 30 := by
    norm_num [calculatePredictedRank, jsRoundQ]
  refine ⟨⟨?_, ?_, ?_, ?_⟩, ?_⟩
  · rw [hmapA, List.map_cons, List.map_nil]
    simp only [predictionFor, hmA, c10TargetRanks]
    rw [hcrA]
  · rw [hmapB, List.map_cons, List.map_nil]
    simp only [predictionFor, hmB, c10TargetRanks]
    rw [hcrB]
  · rw [hmapA, List.map_cons, List.map_nil]
    simp only [predictionFor, hmA, c10TargetRanks]
    rw [hcrA, installs_rank30_to_20]
  · rw [hmapB, List.map_cons, List.map_nil]
    simp only [predictionFor, hmB, c10TargetRanks]
    rw [hcrB, installs_rank50_to_30]
  · intro kws t r r'
    rw [generatePredictions, generatePredictions]
    generalize 0 = i
    induction kws generalizing i with
    | nil => intro _; rfl
    | cons d rest ih =>
      intro hall
      rw [generatePredictionsFrom, generatePredictionsFrom]
      have hd := hall d (List.mem_cons_self d rest)
      have hmetrics : getKeywordMetrics d r i = getKeywordMetrics d r' i := by
        obtain ⟨h1, h2, h3⟩ := hd
        obtain ⟨cr, hcr⟩ := Option.ne_none_iff_exists'.mp h1
        obtain ⟨vo, hvo⟩ := Option.ne_none_iff_exists'.mp h2
        obtain ⟨df, hdf⟩ := Option.ne_none_iff_exists'.mp h3
        rw [getKeywordMetrics, getKeywordMetrics, hcr, hvo, hdf]
        rfl
      rw [predictionFor, predictionFor, hmetrics,
        ih (i + 3) (fun x hx => hall x (List.mem_cons_of_mem d hx))]


/-- Concrete run of `predictions_random_backfill`'s deterministic part:
with all three metrics present, two different random streams give the same
predictions. -/
theorem predictions_random_backfill_witness :
    generatePredictions [c10AllPresent] c10TargetRanks c10RandomA =
      generatePredictions [c10AllPresent] c10TargetRanks c10RandomB :=
  predictions_random_backfill.2 [c10AllPresent] c10TargetRanks c10RandomA c10RandomB
    (by
      intro d hd
      rw [List.mem_singleton.mp hd]
      exact ⟨by simp [c10AllPresent], by simp [c10AllPresent], by simp [c10AllPresent]⟩)

end ASO
